import Mathlib

/-!
# Verification of the TN Elections 2021 booth-analysis frontend core

Shallow embedding of `src/tn_elections_2021/frontend/app.js`: the record
("booth") data model, the categorizer (`simplifyCategory` and the inline copy
in `loadConstituency`), the geohash bucketer (`computeGeohashAreas`), the
overlay hash computation of `renderGeohashAreas`, the table sort and
pagination of `renderTable` / `updatePagination`, the filter engine
(`applyFilters`), and the load state-transition of `loadConstituency`.

Modelling conventions:
* JS numbers are modelled as `ℚ` (the data holds vote counts, coordinates and
  percentages; no NaN/Infinity arise in the modelled paths).
* A JS object field that may be absent (`undefined`) is an `Option`.
* JS truthiness on numbers: `0` and absent are falsy (`jsTruthyNum`).
* The external geohash library (`geohash.encode` / `geohash.decode_bbox`) is
  not part of this repository; it is passed in as an explicit parameter
  `G : GeohashLib`, exactly as wide as the two calls the source makes.
* The DOM and Leaflet calls are external collaborators and are not modelled.
-/

namespace TN2021

/-- `ITEMS_PER_PAGE` from app.js. -/
def ITEMS_PER_PAGE : ℕ := 50

/-- `GEOHASH_PRECISION` from app.js. -/
def GEOHASH_PRECISION : ℕ := 6

/-- Prior-period comparison sub-object of a booth (`booth.comparison`). -/
structure Comparison where
  dmk_swing : Option ℚ
  aiadmk_swing : Option ℚ
  turnout_change : Option ℚ
deriving DecidableEq, Repr

/-- A raw booth as it arrives in the fetched constituency JSON, before the
processing in `loadConstituency`.  `booth_no`/`station_no` may be absent or
non-numeric; `parseInt` is modelled as the integer value of the raw field,
with `none` standing for an absent or non-numeric field (JS `NaN`). -/
structure RawBooth where
  booth_no : Option ℤ
  station_no : Option ℤ
  village : Option String
  building : Option String
  lat : Option ℚ
  lng : Option ℚ
  dmk_votes : Option ℚ
  aiadmk_votes : Option ℚ
  others_votes : Option ℚ
  winner : Option String
  margin_pct : Option ℚ
  comparison : Option Comparison
deriving DecidableEq, Repr

/-- A processed booth, as produced by the `map` in `loadConstituency`
(spread of the raw booth plus `id`, coerced `booth_no`/`station_no`, and
`category_simple`). -/
structure Booth where
  id : ℕ
  booth_no : ℤ
  station_no : ℤ
  village : Option String
  building : Option String
  lat : Option ℚ
  lng : Option ℚ
  dmk_votes : Option ℚ
  aiadmk_votes : Option ℚ
  others_votes : Option ℚ
  winner : Option String
  margin_pct : Option ℚ
  comparison : Option Comparison
  category_simple : String
deriving DecidableEq, Repr

/-- JS truthiness of a possibly-absent number: `0` and `undefined` are falsy. -/
def jsTruthyNum : Option ℚ → Bool
  | some q => q ≠ 0
  | none => false

/-- JS `String.prototype.toUpperCase`, as a character-wise map. -/
def jsToUpperCase (s : String) : String := ⟨s.data.map Char.toUpper⟩

/-- JS `String.prototype.toLowerCase`, as a character-wise map. -/
def jsToLowerCase (s : String) : String := ⟨s.data.map Char.toLower⟩

/-- `booth.winner?.toUpperCase() || ''` — the case-normalized winning-side
label, `''` when the field is absent. -/
def winnerNorm (w : Option String) : String :=
  match w with
  | some s => jsToUpperCase s
  | none => ""

/-- `booth.margin_pct || 0` — the margin percentage, defaulting to 0 when the
field is absent (or 0, which `||` also maps to 0). -/
def marginPctOf (m : Option ℚ) : ℚ := m.getD 0

/-- `simplifyCategory(booth)` from app.js (lines 312–322). -/
def simplifyCategory (b : Booth) : String :=
  let winner := winnerNorm b.winner
  let marginPct := marginPctOf b.margin_pct
  if marginPct > 10 then
    if winner = "DMK" then "strong-dmk"
    else if winner = "AIADMK" ∨ winner = "ADMK" then "strong-admk"
    else "swing"
  else "swing"

/-- The booth-processing `map` body in `loadConstituency` (lines 241–258):
inline category computation, spread of the raw fields, dense `id`, and
`parseInt(...) || fallback` coercion of the numeric columns. -/
def processBooth (booth : RawBooth) (index : ℕ) : Booth :=
  let winner := winnerNorm booth.winner
  let marginPct := marginPctOf booth.margin_pct
  let category_simple :=
    if marginPct > 10 then
      if winner = "DMK" then "strong-dmk"
      else if winner = "AIADMK" ∨ winner = "ADMK" then "strong-admk"
      else "swing"
    else "swing"
  { id := index
    booth_no :=
      match booth.booth_no with
      | some k => if k = 0 then (index : ℤ) + 1 else k
      | none => (index : ℤ) + 1
    station_no :=
      match booth.station_no with
      | some k => k
      | none => 0
    village := booth.village
    building := booth.building
    lat := booth.lat
    lng := booth.lng
    dmk_votes := booth.dmk_votes
    aiadmk_votes := booth.aiadmk_votes
    others_votes := booth.others_votes
    winner := booth.winner
    margin_pct := booth.margin_pct
    comparison := booth.comparison
    category_simple := category_simple }

/-- `currentConstituency.booths.map((booth, index) => ...)`. -/
def processBooths (raws : List RawBooth) : List Booth :=
  raws.mapIdx (fun i r => processBooth r i)

/-! ## Geohash bucketing (`computeGeohashAreas`, lines 336–379) -/

/-- The two entry points of the external geohash library used by app.js
(`geohash.encode`, `geohash.decode_bbox`).  The library is not part of this
repository, so it is an explicit parameter of the bucketer. -/
structure GeohashLib where
  encode : ℚ → ℚ → ℕ → String
  decode_bbox : String → ℚ × ℚ × ℚ × ℚ

/-- One spatial cell (`geohashAreas` map value).  The fields `category` and
the three `avg_*` fields are absent (`undefined`, here `none`) when the cell
object is first created; the second phase of `computeGeohashAreas` assigns
`category`, `avg_dmk_swing` and `avg_aiadmk_swing`.  No code path in app.js
ever assigns `avg_turnout_change`. -/
structure GeoArea where
  hash : String
  booths : List Booth
  dmk_votes : ℚ
  aiadmk_votes : ℚ
  others_votes : ℚ
  bounds : ℚ × ℚ × ℚ × ℚ
  category : Option String
  avg_dmk_swing : Option ℚ
  avg_aiadmk_swing : Option ℚ
  avg_turnout_change : Option ℚ
deriving DecidableEq, Repr

/-- The guard `if (!booth.lat || !booth.lng) return;` — a booth takes part in
bucketing iff both coordinates are truthy. -/
def hasCoords (b : Booth) : Bool := jsTruthyNum b.lat && jsTruthyNum b.lng

/-- Appending a booth to a cell: `area.booths.push(booth)` plus the three
`area.*_votes += booth.*_votes || 0` updates. -/
def addBoothToArea (b : Booth) (a : GeoArea) : GeoArea :=
  { a with
    booths := a.booths ++ [b]
    dmk_votes := a.dmk_votes + b.dmk_votes.getD 0
    aiadmk_votes := a.aiadmk_votes + b.aiadmk_votes.getD 0
    others_votes := a.others_votes + b.others_votes.getD 0 }

/-- The object literal stored by `geohashAreas.set(hash, {...})` on first
sight of a hash. -/
def newGeoArea (G : GeohashLib) (hash : String) : GeoArea :=
  { hash := hash
    booths := []
    dmk_votes := 0
    aiadmk_votes := 0
    others_votes := 0
    bounds := G.decode_bbox hash
    category := none
    avg_dmk_swing := none
    avg_aiadmk_swing := none
    avg_turnout_change := none }

/-- Insertion of a coordinate-bearing booth into the (insertion-ordered) cell
map: create the cell on first sight, then append the booth and add its
votes.  A JS `Map` keyed by the hash is modelled as an association list in
insertion order. -/
def insertBoothIntoAreas (G : GeohashLib) (h : String) (b : Booth) :
    List GeoArea → List GeoArea
  | [] => [addBoothToArea b (newGeoArea G h)]
  | a :: rest =>
    if a.hash = h then addBoothToArea b a :: rest
    else a :: insertBoothIntoAreas G h b rest

/-- The body of the first `allBooths.forEach` in `computeGeohashAreas`. -/
def bucketBooth (G : GeohashLib) (areas : List GeoArea) (b : Booth) : List GeoArea :=
  if hasCoords b then
    insertBoothIntoAreas G (G.encode (b.lat.getD 0) (b.lng.getD 0) GEOHASH_PRECISION) b areas
  else areas

/-- `booth.comparison?.dmk_swing || 0` (and the analogous accesses). -/
def compDmkSwing (b : Booth) : ℚ := ((b.comparison.bind Comparison.dmk_swing).getD 0)

def compAiadmkSwing (b : Booth) : ℚ := ((b.comparison.bind Comparison.aiadmk_swing).getD 0)

/-- The second `geohashAreas.forEach` in `computeGeohashAreas`: dominant
category from the summed two-party totals, and the average swings.
`avg_turnout_change` is not assigned (there is no assignment to it anywhere
in app.js). -/
def finalizeGeoArea (a : GeoArea) : GeoArea :=
  let total := a.dmk_votes + a.aiadmk_votes
  let dmkPct := if total > 0 then a.dmk_votes / total * 100 else 0
  let aiadmkPct := if total > 0 then a.aiadmk_votes / total * 100 else 0
  let margin := |dmkPct - aiadmkPct|
  { a with
    category :=
      some (if margin > 10 then
              if dmkPct > aiadmkPct then "strong-dmk" else "strong-admk"
            else "swing")
    avg_dmk_swing := some ((a.booths.map compDmkSwing).sum / (a.booths.length : ℚ))
    avg_aiadmk_swing := some ((a.booths.map compAiadmkSwing).sum / (a.booths.length : ℚ)) }

/-- `computeGeohashAreas()` from app.js (lines 336–379), as a function of the
current record set. -/
def computeGeohashAreas (G : GeohashLib) (allBooths : List Booth) : List GeoArea :=
  (allBooths.foldl (bucketBooth G) []).map finalizeGeoArea

/-- The `visibleHashes` set built by `renderGeohashAreas` (lines 388–394)
from the currently filtered booths: the hashes whose cells get highlighted.
The JS `Set` is modelled as the list of added hashes (membership is what the
rendering loop consumes). -/
def visibleHashes (G : GeohashLib) (filteredBooths : List Booth) : List String :=
  filteredBooths.filterMap fun b =>
    if hasCoords b then some (G.encode (b.lat.getD 0) (b.lng.getD 0) GEOHASH_PRECISION)
    else none

/-- All member booths across all cells, in cell order. -/
def areaMembers (areas : List GeoArea) : List Booth :=
  (areas.map GeoArea.booths).flatten

/-! ## C1 -/

/-- **C1.** For every record, categorization is a pure function of the
record's case-normalized winning-side label and its margin percentage
(defaulting to 0 when absent) only: margin strictly greater than 10 with
winner `DMK` gives `strong-dmk`; margin strictly greater than 10 with winner
`AIADMK` or its alias `ADMK` gives `strong-admk`; every other case,
including a margin of exactly 10, gives `swing`.  The inline categorization
in `loadConstituency` agrees with `simplifyCategory`. -/
theorem C1_categorizer_rule :
    (∀ b : Booth,
      simplifyCategory b =
        if 10 < marginPctOf b.margin_pct ∧ winnerNorm b.winner = "DMK" then
          "strong-dmk"
        else if 10 < marginPctOf b.margin_pct ∧
            (winnerNorm b.winner = "AIADMK" ∨ winnerNorm b.winner = "ADMK") then
          "strong-admk"
        else "swing")
    ∧ (∀ b₁ b₂ : Booth, winnerNorm b₁.winner = winnerNorm b₂.winner →
        marginPctOf b₁.margin_pct = marginPctOf b₂.margin_pct →
        simplifyCategory b₁ = simplifyCategory b₂)
    ∧ (∀ (r : RawBooth) (i : ℕ),
        (processBooth r i).category_simple = simplifyCategory (processBooth r i)) := by
  refine ⟨fun b => ?_, fun b₁ b₂ hw hm => ?_, fun r i => rfl⟩
  · unfold simplifyCategory
    by_cases h : (10 : ℚ) < marginPctOf b.margin_pct
    · simp only [gt_iff_lt, h, if_true, true_and]
    · simp only [gt_iff_lt, h, if_false, false_and]
  · unfold simplifyCategory
    rw [hw, hm]

/-- Witness for C1: a margin of exactly 10 yields `swing`; margin 11 with a
lowercase `dmk` winner yields `strong-dmk`; two records differing in
everything but (normalized winner, margin) categorize identically. -/
theorem C1_categorizer_rule_witness :
    simplifyCategory
        ⟨0, 1, 0, none, none, none, none, none, none, none, some "DMK", some 10, none, ""⟩
      = "swing"
    ∧ simplifyCategory
        ⟨0, 1, 0, none, none, none, none, none, none, none, some "dmk",
          some 11, none, ""⟩
      = "strong-dmk"
    ∧ simplifyCategory
        ⟨0, 1, 0, some "X", none, none, none, none, none, none, some "Dmk", some 15, none, ""⟩
      = simplifyCategory
        ⟨7, 2, 3, some "Y", none, none, none, none, none, none, some "dMK", some 15, none, ""⟩ := by
  refine ⟨?_, ?_, ?_⟩
  · rw [C1_categorizer_rule.1]; decide
  · rw [C1_categorizer_rule.1]; decide
  · exact C1_categorizer_rule.2.1 _ _ (by decide) (by decide)

/-! ## C2 — bucketing is a partition of the coordinate-bearing records -/

theorem finalizeGeoArea_booths (a : GeoArea) : (finalizeGeoArea a).booths = a.booths := rfl

theorem areaMembers_nil : areaMembers [] = [] := rfl

theorem areaMembers_cons (a : GeoArea) (areas : List GeoArea) :
    areaMembers (a :: areas) = a.booths ++ areaMembers areas := rfl

theorem areaMembers_map_finalize (areas : List GeoArea) :
    areaMembers (areas.map finalizeGeoArea) = areaMembers areas := by
  induction areas with
  | nil => rfl
  | cons a t ih => simp [areaMembers_cons, ih, finalizeGeoArea_booths]

theorem areaMembers_insertBooth (G : GeohashLib) (h : String) (b : Booth) :
    ∀ areas : List GeoArea,
      (areaMembers (insertBoothIntoAreas G h b areas)).Perm (b :: areaMembers areas)
  | [] => by
    simp [insertBoothIntoAreas, areaMembers_cons, areaMembers_nil, addBoothToArea, newGeoArea]
  | a :: rest => by
    by_cases hh : a.hash = h
    · rw [insertBoothIntoAreas, if_pos hh, areaMembers_cons, areaMembers_cons]
      show ((a.booths ++ [b]) ++ areaMembers rest).Perm _
      rw [List.append_assoc]
      exact List.perm_middle
    · rw [insertBoothIntoAreas, if_neg hh, areaMembers_cons, areaMembers_cons]
      exact ((areaMembers_insertBooth G h b rest).append_left a.booths).trans List.perm_middle

theorem areaMembers_bucket_foldl (G : GeohashLib) :
    ∀ (l : List Booth) (init : List GeoArea),
      (areaMembers (l.foldl (bucketBooth G) init)).Perm
        (areaMembers init ++ l.filter hasCoords)
  | [], init => by simp
  | b :: t, init => by
    rw [List.foldl_cons]
    by_cases hb : hasCoords b
    · rw [List.filter_cons_of_pos hb]
      have h1 := areaMembers_bucket_foldl G t (bucketBooth G init b)
      have h2 : (areaMembers (bucketBooth G init b)).Perm (b :: areaMembers init) := by
        unfold bucketBooth
        rw [if_pos hb]
        exact areaMembers_insertBooth G _ b init
      exact h1.trans ((h2.append_right _).trans List.perm_middle.symm)
    · rw [List.filter_cons_of_neg hb]
      have h3 : bucketBooth G init b = init := by
        unfold bucketBooth
        rw [if_neg hb]
      rw [h3]
      exact areaMembers_bucket_foldl G t init

/-- The member booths across all cells are a permutation of the
coordinate-bearing input records. -/
theorem areaMembers_compute (G : GeohashLib) (allBooths : List Booth) :
    (areaMembers (computeGeohashAreas G allBooths)).Perm (allBooths.filter hasCoords) := by
  rw [computeGeohashAreas, areaMembers_map_finalize]
  simpa using areaMembers_bucket_foldl G allBooths []

theorem mem_areaMembers_of_mem {b : Booth} {a : GeoArea} {areas : List GeoArea}
    (ha : a ∈ areas) (hb : b ∈ a.booths) : b ∈ areaMembers areas := by
  simp only [areaMembers, List.mem_flatten]
  exact ⟨a.booths, List.mem_map_of_mem GeoArea.booths ha, hb⟩

/-- **C2.** The multiset of member identifiers across all spatial cells
produced by bucketing equals exactly the identifiers of the
coordinate-bearing records — no duplicate memberships, no omissions — and a
record lacking (truthy) coordinates appears in no cell. -/
theorem C2_bucketing_partition (G : GeohashLib) (allBooths : List Booth) :
    ((areaMembers (computeGeohashAreas G allBooths)).map Booth.id).Perm
        ((allBooths.filter hasCoords).map Booth.id)
    ∧ ∀ b : Booth, hasCoords b = false →
        b ∉ areaMembers (computeGeohashAreas G allBooths) := by
  refine ⟨(areaMembers_compute G allBooths).map Booth.id, fun b hb hmem => ?_⟩
  have h2 : b ∈ allBooths.filter hasCoords :=
    ((areaMembers_compute G allBooths).mem_iff).1 hmem
  rw [List.mem_filter, hb] at h2
  exact Bool.false_ne_true h2.2

/-- A stand-in for the external geohash library, used only to instantiate
witnesses on concrete inputs. -/
def demoG : GeohashLib :=
  { encode := fun la _ _ => if la < 13 then "w5x" else "w5z"
    decode_bbox := fun _ => (0, 0, 0, 0) }

/-- A coordinate-bearing demo booth. -/
def demoBooth1 : Booth :=
  ⟨0, 1, 0, some "Alpha", none, some 12, some 79, some 300, some 200, some 10,
    some "DMK", some 20, none, "strong-dmk"⟩

/-- A second coordinate-bearing demo booth falling in the same cell. -/
def demoBooth2 : Booth :=
  ⟨1, 2, 0, some "Beta", none, some (25 / 2), some 79, some 100, some 250, some 5,
    some "AIADMK", some 30, none, "strong-admk"⟩

/-- A demo booth with a present-but-zero latitude (falsy coordinate). -/
def demoBooth3 : Booth :=
  ⟨2, 3, 0, some "Gamma", none, some 0, some 79, some 50, some 50, some 0,
    none, none, none, "swing"⟩

/-- Witness for C2 at a concrete record set: two coordinate-bearing booths
and one with a falsy latitude. -/
theorem C2_bucketing_partition_witness :
    ((areaMembers (computeGeohashAreas demoG [demoBooth1, demoBooth2, demoBooth3])).map
        Booth.id).Perm
      (([demoBooth1, demoBooth2, demoBooth3].filter hasCoords).map Booth.id)
    ∧ demoBooth3 ∉
        areaMembers (computeGeohashAreas demoG [demoBooth1, demoBooth2, demoBooth3]) :=
  ⟨(C2_bucketing_partition demoG [demoBooth1, demoBooth2, demoBooth3]).1,
   (C2_bucketing_partition demoG [demoBooth1, demoBooth2, demoBooth3]).2 demoBooth3
     (by decide)⟩

/-! ## C6, C7 — cell finalization: dominant category and averaged swings -/

/-- An invariant that holds for every cell the bucketing phase ever creates
is preserved by the whole fold. -/
theorem insert_area_invariant {P : GeoArea → Prop} (G : GeohashLib)
    (hnew : ∀ (hash : String) (b : Booth), P (addBoothToArea b (newGeoArea G hash)))
    (hadd : ∀ (b : Booth) (a : GeoArea), P a → P (addBoothToArea b a))
    (h : String) (b : Booth) :
    ∀ areas : List GeoArea, (∀ a ∈ areas, P a) →
      ∀ a ∈ insertBoothIntoAreas G h b areas, P a
  | [], _ => by
    intro a ha
    rw [insertBoothIntoAreas] at ha
    simp only [List.mem_singleton] at ha
    exact ha ▸ hnew h b
  | x :: rest, hall => by
    intro a ha
    rw [insertBoothIntoAreas] at ha
    by_cases hh : x.hash = h
    · rw [if_pos hh] at ha
      rcases List.mem_cons.1 ha with h1 | h1
      · exact h1 ▸ hadd b x (hall x (List.mem_cons_self x rest))
      · exact hall a (List.mem_cons_of_mem x h1)
    · rw [if_neg hh] at ha
      rcases List.mem_cons.1 ha with h1 | h1
      · exact h1 ▸ hall x (List.mem_cons_self x rest)
      · exact insert_area_invariant G hnew hadd h b rest
          (fun a' ha' => hall a' (List.mem_cons_of_mem x ha')) a h1

theorem foldl_area_invariant {P : GeoArea → Prop} (G : GeohashLib)
    (hnew : ∀ (hash : String) (b : Booth), P (addBoothToArea b (newGeoArea G hash)))
    (hadd : ∀ (b : Booth) (a : GeoArea), P a → P (addBoothToArea b a)) :
    ∀ (l : List Booth) (init : List GeoArea), (∀ a ∈ init, P a) →
      ∀ a ∈ l.foldl (bucketBooth G) init, P a
  | [], _, hinit => by simpa using hinit
  | b :: t, init, hinit => by
    rw [List.foldl_cons]
    refine foldl_area_invariant G hnew hadd t (bucketBooth G init b) ?_
    intro a ha
    unfold bucketBooth at ha
    by_cases hb : hasCoords b
    · rw [if_pos hb] at ha
      exact insert_area_invariant G hnew hadd _ b init hinit a ha
    · rw [if_neg hb] at ha
      exact hinit a ha

/-- The running totals of a cell are the sums of its members' (defaulted)
vote counts. -/
def areaVotesInv (a : GeoArea) : Prop :=
  a.dmk_votes = (a.booths.map (fun b => b.dmk_votes.getD 0)).sum
  ∧ a.aiadmk_votes = (a.booths.map (fun b => b.aiadmk_votes.getD 0)).sum
  ∧ a.others_votes = (a.booths.map (fun b => b.others_votes.getD 0)).sum

theorem areaVotesInv_foldl (G : GeohashLib) (l : List Booth) :
    ∀ a ∈ l.foldl (bucketBooth G) [], areaVotesInv a := by
  refine foldl_area_invariant G ?_ ?_ l [] (by simp)
  · intro hash b
    simp [areaVotesInv, addBoothToArea, newGeoArea]
  · rintro b a ⟨h1, h2, h3⟩
    refine ⟨?_, ?_, ?_⟩ <;> simp [addBoothToArea, h1, h2, h3]

theorem turnoutNone_foldl (G : GeohashLib) (l : List Booth) :
    ∀ a ∈ l.foldl (bucketBooth G) [], a.avg_turnout_change = none := by
  refine foldl_area_invariant G ?_ ?_ l [] (by simp)
  · intro hash b; rfl
  · intro b a h; exact h

/-- The dominant-category rule exactly as claim C6 words it: the margin is
the absolute difference of the two parties' percentage shares of their
two-party total (ignoring `others`); strictly above 10 the cell is strong
for the larger side, otherwise — including a two-party total of zero and a
margin of exactly 10 — it is `swing`. -/
def specCellRule (dmk aiadmk : ℚ) : String :=
  let t := dmk + aiadmk
  if t = 0 then "swing"
  else if |dmk / t * 100 - aiadmk / t * 100| > 10 then
    if aiadmk < dmk then "strong-dmk" else "strong-admk"
  else "swing"

/-- **C6.** For vote counts that are nonnegative (as vote counts are), every
produced cell's dominant category follows the strictly-greater-than-10
margin rule applied to the cell's summed two-party vote totals, the margin
being taken over the two named parties' shares of their two-party total
(ignoring `others`); a zero two-party total and a margin of exactly 10 both
give `swing`.  The cell totals are the sums of the members' vote counts. -/
theorem C6_cell_dominant_category (G : GeohashLib) (allBooths : List Booth)
    (hpos : ∀ b ∈ allBooths, 0 ≤ b.dmk_votes.getD 0 ∧ 0 ≤ b.aiadmk_votes.getD 0) :
    ∀ a ∈ computeGeohashAreas G allBooths,
      a.category = some (specCellRule a.dmk_votes a.aiadmk_votes)
      ∧ a.dmk_votes = (a.booths.map (fun b => b.dmk_votes.getD 0)).sum
      ∧ a.aiadmk_votes = (a.booths.map (fun b => b.aiadmk_votes.getD 0)).sum := by
  intro a ha
  rw [computeGeohashAreas] at ha
  rcases List.mem_map.1 ha with ⟨a', ha', rfl⟩
  have hinv := areaVotesInv_foldl G allBooths a' ha'
  have hmem : ∀ b ∈ a'.booths, b ∈ allBooths := by
    intro b hb
    have h1 : b ∈ areaMembers (allBooths.foldl (bucketBooth G) []) :=
      mem_areaMembers_of_mem ha' hb
    have h2 := (areaMembers_bucket_foldl G allBooths []).mem_iff.1 h1
    simp only [areaMembers_nil, List.nil_append, List.mem_filter] at h2
    exact h2.1
  have hd : 0 ≤ a'.dmk_votes := by
    rw [hinv.1]
    refine List.sum_nonneg ?_
    intro x hx
    rcases List.mem_map.1 hx with ⟨b, hb, rfl⟩
    exact (hpos b (hmem b hb)).1
  have hr : 0 ≤ a'.aiadmk_votes := by
    rw [hinv.2.1]
    refine List.sum_nonneg ?_
    intro x hx
    rcases List.mem_map.1 hx with ⟨b, hb, rfl⟩
    exact (hpos b (hmem b hb)).2
  refine ⟨?_, hinv.1, hinv.2.1⟩
  show (finalizeGeoArea a').category = some (specCellRule a'.dmk_votes a'.aiadmk_votes)
  simp only [finalizeGeoArea, specCellRule]
  set d := a'.dmk_votes with hdd
  set r := a'.aiadmk_votes with hrr
  have h100 : (0 : ℚ) < 100 := by norm_num
  rcases (add_nonneg hd hr).lt_or_eq with hgt | heq
  · have hne : d + r ≠ 0 := ne_of_gt hgt
    have hside : (r / (d + r) * 100 < d / (d + r) * 100) ↔ r < d := by
      rw [mul_lt_mul_right h100, div_lt_div_iff_of_pos_right hgt]
    rw [if_pos hgt, if_pos hgt, if_neg hne]
    by_cases hm : 10 < |d / (d + r) * 100 - r / (d + r) * 100|
    · rw [if_pos hm, if_pos hm]
      by_cases hs : r < d
      · rw [if_pos (hside.2 hs), if_pos hs]
      · rw [if_neg (fun hc => hs (hside.1 hc)), if_neg hs]
    · rw [if_neg hm, if_neg hm]
  · have h0 : d + r = 0 := heq.symm
    have hlt : ¬ (0 : ℚ) < d + r := by rw [h0]; exact lt_irrefl 0
    rw [if_neg hlt, if_neg hlt, if_pos h0,
      if_neg (by norm_num : ¬ (10 : ℚ) < |(0 : ℚ) - 0|)]

/-- The cell key the demo record set hashes `demoBooth1` to. -/
def demoCellHash : String :=
  demoG.encode (demoBooth1.lat.getD 0) (demoBooth1.lng.getD 0) GEOHASH_PRECISION

/-- The single cell produced by bucketing `[demoBooth1]`. -/
def demoArea : GeoArea :=
  finalizeGeoArea (addBoothToArea demoBooth1 (newGeoArea demoG demoCellHash))

theorem demoArea_mem : demoArea ∈ computeGeohashAreas demoG [demoBooth1] := by
  show demoArea ∈ [demoArea]
  exact List.mem_cons_self demoArea []

/-- Witness for C6 at a concrete one-record set. -/
theorem C6_cell_dominant_category_witness :
    (∀ b ∈ [demoBooth1], 0 ≤ b.dmk_votes.getD 0 ∧ 0 ≤ b.aiadmk_votes.getD 0)
    ∧ demoArea.category = some (specCellRule demoArea.dmk_votes demoArea.aiadmk_votes)
    ∧ demoArea.dmk_votes = (demoArea.booths.map (fun b => b.dmk_votes.getD 0)).sum :=
  ⟨by decide,
   (C6_cell_dominant_category demoG [demoBooth1] (by decide) demoArea demoArea_mem).1,
   (C6_cell_dominant_category demoG [demoBooth1] (by decide) demoArea demoArea_mem).2.1⟩

/-- **C7.** For every produced cell, each of the two per-party swing metrics
is the unweighted arithmetic mean of the members' (defaulted-to-0) metric,
with the full member count as denominator — but the turnout delta is never
aggregated: no code path assigns `avg_turnout_change`, so it is `undefined`
(`none`) on every produced cell, even though `renderGeohashAreas` reads
`area.avg_turnout_change.toFixed(2)` whenever it renders a popup. -/
theorem C7_cell_swing_averages (G : GeohashLib) (allBooths : List Booth) :
    ∀ a ∈ computeGeohashAreas G allBooths,
      a.avg_dmk_swing = some ((a.booths.map compDmkSwing).sum / (a.booths.length : ℚ))
      ∧ a.avg_aiadmk_swing = some ((a.booths.map compAiadmkSwing).sum / (a.booths.length : ℚ))
      ∧ a.avg_turnout_change = none := by
  intro a ha
  rw [computeGeohashAreas] at ha
  rcases List.mem_map.1 ha with ⟨a', ha', rfl⟩
  exact ⟨rfl, rfl, turnoutNone_foldl G allBooths a' ha'⟩

/-- Witness for C7 at a concrete one-record set. -/
theorem C7_cell_swing_averages_witness :
    demoArea.avg_dmk_swing
        = some ((demoArea.booths.map compDmkSwing).sum / (demoArea.booths.length : ℚ))
    ∧ demoArea.avg_aiadmk_swing
        = some ((demoArea.booths.map compAiadmkSwing).sum / (demoArea.booths.length : ℚ))
    ∧ demoArea.avg_turnout_change = none :=
  C7_cell_swing_averages demoG [demoBooth1] demoArea demoArea_mem

/-! ## C10 — falsy coordinates are treated as coordinate-less -/

/-- **C10.** A record whose latitude or longitude is present-but-zero (or
absent) is coordinate-less for the pipeline: it fails the truthiness guard,
every cell member passed the guard, and the filtered-overlay hash set is
unchanged by dropping all such records. -/
theorem C10_falsy_coordinates (G : GeohashLib) :
    (∀ b : Booth,
      b.lat = some 0 ∨ b.lng = some 0 ∨ b.lat = none ∨ b.lng = none →
        hasCoords b = false)
    ∧ (∀ (allBooths : List Booth), ∀ a ∈ computeGeohashAreas G allBooths,
        ∀ b ∈ a.booths, hasCoords b = true)
    ∧ (∀ filteredBooths : List Booth,
        visibleHashes G filteredBooths = visibleHashes G (filteredBooths.filter hasCoords)) := by
  refine ⟨fun b hb => ?_, fun l a ha b hb => ?_, fun l => ?_⟩
  · rcases hb with h | h | h | h <;>
      simp [hasCoords, jsTruthyNum, h]
  · have h1 : b ∈ areaMembers (computeGeohashAreas G l) := mem_areaMembers_of_mem ha hb
    have h2 := (areaMembers_compute G l).mem_iff.1 h1
    exact (List.mem_filter.1 h2).2
  · induction l with
    | nil => rfl
    | cons b t ih =>
      by_cases hb : hasCoords b
      · rw [List.filter_cons_of_pos hb]
        simp only [visibleHashes, List.filterMap_cons, hb, if_pos] at ih ⊢
        rw [ih]
      · rw [List.filter_cons_of_neg hb]
        simp only [visibleHashes, List.filterMap_cons] at ih ⊢
        rw [if_neg (by simpa using hb)]
        exact ih

/-- Witness for C10: the zero-latitude demo booth is excluded; the
coordinate-bearing member of the demo cell passed the guard; dropping
falsy-coordinate records does not change the highlighted overlay hashes. -/
theorem C10_falsy_coordinates_witness :
    hasCoords demoBooth3 = false
    ∧ hasCoords demoBooth1 = true
    ∧ visibleHashes demoG [demoBooth1, demoBooth3]
        = visibleHashes demoG ([demoBooth1, demoBooth3].filter hasCoords) :=
  ⟨(C10_falsy_coordinates demoG).1 demoBooth3 (Or.inl rfl),
   (C10_falsy_coordinates demoG).2.1 [demoBooth1] demoArea demoArea_mem demoBooth1
     (by show demoBooth1 ∈ [demoBooth1]; exact List.mem_cons_self demoBooth1 []),
   (C10_falsy_coordinates demoG).2.2 [demoBooth1, demoBooth3]⟩

/-! ## C4 — pagination (`renderTable` slice and `updatePagination`) -/

/-- `Math.ceil(totalItems / ITEMS_PER_PAGE)` from `updatePagination`
(line 535). -/
def totalPagesOf (totalItems : ℕ) : ℕ :=
  (⌈(totalItems : ℚ) / (ITEMS_PER_PAGE : ℚ)⌉).toNat

/-- `sorted.slice(start, end)` with `start = (currentPage - 1) * ITEMS_PER_PAGE`
and `end = start + ITEMS_PER_PAGE` (lines 478–480). -/
def pageSliceOf (l : List Booth) (currentPage : ℕ) : List Booth :=
  (l.drop ((currentPage - 1) * ITEMS_PER_PAGE)).take ITEMS_PER_PAGE

/-- `Math.ceil(n / 50)` agrees with the natural-number formula `(n + 49) / 50`. -/
theorem totalPagesOf_eq (n : ℕ) :
    totalPagesOf n = (n + (ITEMS_PER_PAGE - 1)) / ITEMS_PER_PAGE := by
  have h50 : (0 : ℚ) < 50 := by norm_num
  have hdm := Nat.div_add_mod (n + 49) 50
  have hmod : (n + 49) % 50 < 50 := Nat.mod_lt _ (by norm_num)
  set m := (n + 49) / 50 with hm
  have h1 : 50 * m ≤ n + 49 := by omega
  have h2 : n ≤ 50 * m := by omega
  have hceil : ⌈(n : ℚ) / 50⌉ = (m : ℤ) := by
    rw [Int.ceil_eq_iff]
    constructor
    · rw [show ((m : ℤ) : ℚ) - 1 = (((m : ℤ) - 1 : ℤ) : ℚ) by push_cast; ring,
        lt_div_iff₀ h50]
      have : ((m : ℤ) - 1) * 50 < (n : ℤ) := by omega
      exact_mod_cast this
    · rw [div_le_iff₀ h50]
      have : (n : ℤ) ≤ (m : ℤ) * 50 := by omega
      exact_mod_cast this
  show (⌈(n : ℚ) / ((50 : ℕ) : ℚ)⌉).toNat = (n + (50 - 1)) / 50
  rw [show (((50 : ℕ) : ℚ)) = (50 : ℚ) by norm_num, hceil, Int.toNat_natCast]

/-- The length of the page-`p` slice, in terms of the record count. -/
theorem pageSliceOf_length (l : List Booth) (p : ℕ) :
    (pageSliceOf l p).length = min ITEMS_PER_PAGE (l.length - (p - 1) * ITEMS_PER_PAGE) := by
  rw [pageSliceOf, List.length_take, List.length_drop]

/-- **C4.** The page count is `ceil(total / pageSize)` for the fixed page
size 50; the page-slice lengths over pages `1..totalPages` sum to the total
record count; a page beyond the last yields an empty slice; and page 1 of an
empty record set is an empty slice with 0 total pages. -/
theorem C4_pagination (l : List Booth) :
    (totalPagesOf l.length : ℤ) = ⌈(l.length : ℚ) / (ITEMS_PER_PAGE : ℚ)⌉
    ∧ (∑ p ∈ Finset.Icc 1 (totalPagesOf l.length), (pageSliceOf l p).length) = l.length
    ∧ (∀ p : ℕ, totalPagesOf l.length < p → pageSliceOf l p = [])
    ∧ pageSliceOf ([] : List Booth) 1 = []
    ∧ totalPagesOf 0 = 0 := by
  have hceil : ∀ k : ℕ, totalPagesOf k = (k + 49) / 50 := fun k => totalPagesOf_eq k
  set n := l.length with hn
  have hdm := Nat.div_add_mod (n + 49) 50
  have hmod : (n + 49) % 50 < 50 := Nat.mod_lt _ (by norm_num)
  set m := (n + 49) / 50 with hm
  have h1 : 50 * m ≤ n + 49 := by omega
  have h2 : n ≤ 50 * m := by omega
  refine ⟨?_, ?_, ?_, rfl, by rw [hceil]⟩
  · rw [totalPagesOf]
    exact Int.toNat_of_nonneg (Int.ceil_nonneg (by positivity))
  · rw [hceil, ← hm]
    rcases Nat.eq_zero_or_pos n with h0 | hpos
    · have hm0 : m = 0 := by omega
      rw [hm0, h0]
      simp
    · have hm1 : 1 ≤ m := by omega
      rw [show m = (m - 1) + 1 by omega,
        Finset.sum_Icc_succ_top (by omega : 1 ≤ (m - 1) + 1)]
      have hterm : ∀ p ∈ Finset.Icc 1 (m - 1), (pageSliceOf l p).length = 50 := by
        intro p hp
        rcases Finset.mem_Icc.1 hp with ⟨hp1, hp2⟩
        rw [pageSliceOf_length]
        have h5 : ITEMS_PER_PAGE ≤ n - (p - 1) * ITEMS_PER_PAGE := by
          show 50 ≤ n - (p - 1) * 50
          omega
        rw [min_eq_left h5]
        rfl
      rw [Finset.sum_congr rfl hterm, Finset.sum_const, Nat.card_Icc, smul_eq_mul,
        pageSliceOf_length]
      have h6 : n - (((m - 1) + 1) - 1) * ITEMS_PER_PAGE ≤ ITEMS_PER_PAGE := by
        show n - ((m - 1 + 1) - 1) * 50 ≤ 50
        omega
      rw [min_eq_right h6]
      show (m - 1 + 1 - 1) * 50 + (n - (m - 1 + 1 - 1) * 50) = n
      omega
  · intro p hp
    rw [hceil] at hp
    rw [pageSliceOf, List.drop_eq_nil_of_le, List.take_nil]
    show n ≤ (p - 1) * 50
    have : m ≤ p - 1 := by omega
    calc n ≤ 50 * m := h2
      _ ≤ 50 * (p - 1) := by omega
      _ = (p - 1) * 50 := by ring

/-- Witness for C4: a three-record set has one page, and page 2 is empty. -/
theorem C4_pagination_witness :
    pageSliceOf [demoBooth1, demoBooth2, demoBooth3] 2 = [] :=
  (C4_pagination [demoBooth1, demoBooth2, demoBooth3]).2.2.1 2
    (by rw [totalPagesOf_eq]; decide)

/-! ## C5 — the filter engine (`applyFilters`, lines 559–584) -/

/-- `leadsChars pat s` — `s` starts with `pat` (helper for `jsIncludes`). -/
def leadsChars : List Char → List Char → Bool
  | [], _ => true
  | _ :: _, [] => false
  | c :: cs, d :: ds => c == d && leadsChars cs ds

/-- `containsChars pat s` — `pat` occurs contiguously in `s`. -/
def containsChars (pat : List Char) : List Char → Bool
  | [] => leadsChars pat []
  | c :: cs => leadsChars pat (c :: cs) || containsChars pat cs

/-- JS `String.prototype.includes` (substring containment). -/
def jsIncludes (s pat : String) : Bool := containsChars pat.data s.data

/-- The search disjunction inside `applyFilters`:
`booth.booth_no?.toString().toLowerCase().includes(search) ||
 booth.village?.toLowerCase().includes(search) ||
 booth.building?.toLowerCase().includes(search)`
(an absent optional field is falsy and never matches). -/
def boothSearchMatch (search : String) (b : Booth) : Bool :=
  jsIncludes (jsToLowerCase (toString b.booth_no)) search
  || (match b.village with
      | some v => jsIncludes (jsToLowerCase v) search
      | none => false)
  || (match b.building with
      | some v => jsIncludes (jsToLowerCase v) search
      | none => false)

/-- The per-record predicate of `applyFilters`: the early-return chain of the
village test, the active-category test, and the search test. -/
def boothMatchesFilters (village : String) (activeFilter : Option String)
    (search : String) (b : Booth) : Bool :=
  if village ≠ "all" ∧ b.village ≠ some village then false
  else if (match activeFilter with
           | some f => b.category_simple != f
           | none => false) then false
  else if search ≠ "" then boothSearchMatch search b
  else true

/-- `applyFilters()` (lines 559–584) as a function of the record set and the
three filter inputs; the search box value is lowercased on entry. -/
def applyFilters (allBooths : List Booth) (village : String)
    (activeFilter : Option String) (searchRaw : String) : List Booth :=
  allBooths.filter (boothMatchesFilters village activeFilter (jsToLowerCase searchRaw))

/-- **C5.** Filtering with all three predicates relaxed (village `"all"`, no
active category, empty search) returns the full input in its original
order, and filtering with any fixed filter state is idempotent. -/
theorem C5_filter_relaxed_identity_and_idempotent :
    (∀ l : List Booth, applyFilters l "all" none "" = l)
    ∧ (∀ (l : List Booth) (village : String) (activeFilter : Option String)
        (searchRaw : String),
        applyFilters (applyFilters l village activeFilter searchRaw)
            village activeFilter searchRaw
          = applyFilters l village activeFilter searchRaw) := by
  constructor
  · intro l
    unfold applyFilters
    refine List.filter_eq_self.mpr (fun b _ => ?_)
    rfl
  · intro l v af s
    unfold applyFilters
    rw [List.filter_filter]
    exact List.filter_congr (fun b _ => by rw [Bool.and_self])

/-! ## C3 — the table sort (`renderTable` comparator, lines 459–476)

JS `Array.prototype.sort` is specified (ES2019+) to be a stable sort when
the comparator is consistent, and implementation-defined otherwise; the model
is insertion sort, which is stable.  The comparator compares the two records'
values in the active column: numerically when both are numbers, otherwise by
the lowercased string form (falsy values first replaced by `''`). -/

/-- A JS value found in a table column. -/
inductive JVal where
  | num (q : ℚ)
  | str (s : String)
  | undefinedV
deriving DecidableEq, Repr

/-- An optional number field, as a column value. -/
def optNum : Option ℚ → JVal
  | some q => .num q
  | none => .undefinedV

/-- An optional string field, as a column value. -/
def optStr : Option String → JVal
  | some s => .str s
  | none => .undefinedV

/-- `booth[currentSort.column]` for the record's fields (an unknown column
name reads as `undefined`). -/
def colVal (col : String) (b : Booth) : JVal :=
  if col = "id" then .num b.id
  else if col = "booth_no" then .num (b.booth_no : ℚ)
  else if col = "station_no" then .num (b.station_no : ℚ)
  else if col = "village" then optStr b.village
  else if col = "building" then optStr b.building
  else if col = "lat" then optNum b.lat
  else if col = "lng" then optNum b.lng
  else if col = "dmk_votes" then optNum b.dmk_votes
  else if col = "aiadmk_votes" then optNum b.aiadmk_votes
  else if col = "others_votes" then optNum b.others_votes
  else if col = "winner" then optStr b.winner
  else if col = "margin_pct" then optNum b.margin_pct
  else if col = "category_simple" then .str b.category_simple
  else .undefinedV

/-- JS truthiness on a column value (`aVal || ''` replaces falsy by `''`). -/
def jsFalsy : JVal → Bool
  | .num q => q = 0
  | .str s => s = ""
  | .undefinedV => true

/-- JS `String(v)`.  Number formatting is modelled by `toString` on `ℚ`; it
is only reachable for a nonzero number compared against a non-number, a
combination none of the verified claims depends on. -/
def jsStringOf : JVal → String
  | .num q => toString q
  | .str s => s
  | .undefinedV => "undefined"

/-- `String(aVal || '').toLowerCase()` — the effective string sort key. -/
def sortKeyStr (v : JVal) : String :=
  jsToLowerCase (jsStringOf (if jsFalsy v then .str "" else v))

/-- The comparator body of `renderTable` (lines 460–475): numeric difference
when both values are numbers, otherwise trichotomy on the lowercased string
forms; the direction flag negates the result. -/
def cmpVal (ascending : Bool) (a b : JVal) : ℚ :=
  match a, b with
  | .num x, .num y => if ascending then x - y else y - x
  | a, b =>
    let aVal := sortKeyStr a
    let bVal := sortKeyStr b
    if ascending then
      if aVal < bVal then -1 else if aVal > bVal then 1 else 0
    else
      if aVal > bVal then -1 else if aVal < bVal then 1 else 0

/-- `[...filteredBooths].sort(comparator)`, modelled as a stable sort with
the nonpositive-comparator relation. -/
def sortBooths (col : String) (ascending : Bool) (l : List Booth) : List Booth :=
  List.insertionSort (fun x y => cmpVal ascending (colVal col x) (colVal col y) ≤ 0) l

theorem cmpVal_self (ascending : Bool) (v : JVal) : cmpVal ascending v v = 0 := by
  cases v with
  | num q => simp [cmpVal]
  | str s => simp [cmpVal, lt_irrefl]
  | undefinedV => simp [cmpVal, lt_irrefl]

/-! ### Stability: a filter by any comparator-tied class is preserved -/

theorem filter_orderedInsert_pos {α : Type} (r : α → α → Prop) [DecidableRel r]
    (p : α → Bool) (x : α) (hpx : p x = true) (hrel : ∀ y, p y = true → r x y) :
    ∀ l : List α, (List.orderedInsert r x l).filter p = x :: l.filter p
  | [] => by simp [hpx]
  | y :: l => by
    rw [List.orderedInsert]
    by_cases hr : r x y
    · rw [if_pos hr]
      simp [List.filter_cons, hpx]
    · rw [if_neg hr]
      have hpy : ¬ (p y = true) := fun h => hr (hrel y h)
      rw [List.filter_cons_of_neg hpy, List.filter_cons_of_neg hpy]
      exact filter_orderedInsert_pos r p x hpx hrel l

theorem filter_orderedInsert_neg {α : Type} (r : α → α → Prop) [DecidableRel r]
    (p : α → Bool) (x : α) (hpx : ¬ (p x = true)) :
    ∀ l : List α, (List.orderedInsert r x l).filter p = l.filter p
  | [] => by simp [hpx]
  | y :: l => by
    rw [List.orderedInsert]
    by_cases hr : r x y
    · rw [if_pos hr, List.filter_cons_of_neg hpx]
    · rw [if_neg hr]
      by_cases hpy : p y = true
      · rw [List.filter_cons_of_pos hpy, List.filter_cons_of_pos hpy,
          filter_orderedInsert_neg r p x hpx l]
      · rw [List.filter_cons_of_neg hpy, List.filter_cons_of_neg hpy,
          filter_orderedInsert_neg r p x hpx l]

theorem filter_insertionSort {α : Type} (r : α → α → Prop) [DecidableRel r]
    (p : α → Bool) (hrel : ∀ a b, p a = true → p b = true → r a b) :
    ∀ l : List α, (List.insertionSort r l).filter p = l.filter p
  | [] => rfl
  | x :: l => by
    rw [List.insertionSort]
    by_cases hpx : p x = true
    · rw [filter_orderedInsert_pos r p x hpx (fun y hy => hrel x y hpx hy),
        List.filter_cons_of_pos hpx, filter_insertionSort r p hrel l]
    · rw [filter_orderedInsert_neg r p x hpx, List.filter_cons_of_neg hpx,
        filter_insertionSort r p hrel l]

/-! ### Sortedness from totality and transitivity on the list's elements -/

theorem pairwise_orderedInsert_local {α : Type} (r : α → α → Prop) [DecidableRel r]
    (x : α) : ∀ l : List α, l.Pairwise r →
      (∀ y ∈ l, r x y ∨ r y x) →
      (∀ y ∈ l, ∀ z ∈ l, r x y → r y z → r x z) →
      (List.orderedInsert r x l).Pairwise r
  | [], _, _, _ => List.pairwise_singleton r x
  | y :: l, hp, htot, htr => by
    rw [List.orderedInsert]
    rcases List.pairwise_cons.1 hp with ⟨hyl, hpl⟩
    by_cases hr : r x y
    · rw [if_pos hr]
      refine List.Pairwise.cons (fun z hz => ?_) hp
      rcases List.mem_cons.1 hz with rfl | hz'
      · exact hr
      · exact htr y (List.mem_cons_self y l) z (List.mem_cons_of_mem y hz') hr (hyl z hz')
    · rw [if_neg hr]
      have hyx : r y x := (htot y (List.mem_cons_self y l)).resolve_left hr
      refine List.Pairwise.cons (fun z hz => ?_)
        (pairwise_orderedInsert_local r x l hpl
          (fun y' hy' => htot y' (List.mem_cons_of_mem y hy'))
          (fun a ha b hb => htr a (List.mem_cons_of_mem y ha) b (List.mem_cons_of_mem y hb)))
      rcases (List.mem_orderedInsert r).1 hz with rfl | hz'
      · exact hyx
      · exact hyl z hz'

theorem pairwise_insertionSort_local {α : Type} (r : α → α → Prop) [DecidableRel r] :
    ∀ l : List α, (∀ a ∈ l, ∀ b ∈ l, r a b ∨ r b a) →
      (∀ a ∈ l, ∀ b ∈ l, ∀ c ∈ l, r a b → r b c → r a c) →
      (List.insertionSort r l).Pairwise r
  | [], _, _ => List.Pairwise.nil
  | x :: l, htot, htr => by
    rw [List.insertionSort]
    refine pairwise_orderedInsert_local r x (List.insertionSort r l)
      (pairwise_insertionSort_local r l
        (fun a ha b hb =>
          htot a (List.mem_cons_of_mem x ha) b (List.mem_cons_of_mem x hb))
        (fun a ha b hb c hc =>
          htr a (List.mem_cons_of_mem x ha) b (List.mem_cons_of_mem x hb)
            c (List.mem_cons_of_mem x hc)))
      (fun y hy => htot x (List.mem_cons_self x l) y
        (List.mem_cons_of_mem x ((List.mem_insertionSort r).1 hy)))
      (fun y hy z hz hxy hyz =>
        htr x (List.mem_cons_self x l) y
          (List.mem_cons_of_mem x ((List.mem_insertionSort r).1 hy))
          z (List.mem_cons_of_mem x ((List.mem_insertionSort r).1 hz)) hxy hyz)

/-! ### Reversal for key-based comparators with distinct keys -/

theorem insertionSort_desc_eq_reverse {α K : Type} [LinearOrder K] (k : α → K)
    (r₁ r₂ : α → α → Prop) [DecidableRel r₁] [DecidableRel r₂] (l : List α)
    (h₁ : ∀ a ∈ l, ∀ b ∈ l, r₁ a b ↔ k a ≤ k b)
    (h₂ : ∀ a ∈ l, ∀ b ∈ l, r₂ a b ↔ k b ≤ k a)
    (hinj : l.Pairwise fun a b => k a ≠ k b) :
    List.insertionSort r₂ l = (List.insertionSort r₁ l).reverse := by
  have p₁ := List.perm_insertionSort r₁ l
  have p₂ := List.perm_insertionSort r₂ l
  have hmem₁ : ∀ a ∈ List.insertionSort r₁ l, a ∈ l :=
    fun a ha => (List.mem_insertionSort r₁).1 ha
  have hmem₂ : ∀ a ∈ List.insertionSort r₂ l, a ∈ l :=
    fun a ha => (List.mem_insertionSort r₂).1 ha
  have s₁ : (List.insertionSort r₁ l).Pairwise r₁ :=
    pairwise_insertionSort_local r₁ l
      (fun a ha b hb => by
        rcases le_total (k a) (k b) with h | h
        · exact Or.inl ((h₁ a ha b hb).2 h)
        · exact Or.inr ((h₁ b hb a ha).2 h))
      (fun a ha b hb c hc hab hbc =>
        (h₁ a ha c hc).2 (((h₁ a ha b hb).1 hab).trans ((h₁ b hb c hc).1 hbc)))
  have s₂ : (List.insertionSort r₂ l).Pairwise r₂ :=
    pairwise_insertionSort_local r₂ l
      (fun a ha b hb => by
        rcases le_total (k b) (k a) with h | h
        · exact Or.inl ((h₂ a ha b hb).2 h)
        · exact Or.inr ((h₂ b hb a ha).2 h))
      (fun a ha b hb c hc hab hbc =>
        (h₂ a ha c hc).2 (((h₂ b hb c hc).1 hbc).trans ((h₂ a ha b hb).1 hab)))
  have hne₁ : (List.insertionSort r₁ l).Pairwise (fun a b => k a ≠ k b) :=
    (p₁.pairwise_iff (fun h => Ne.symm h)).2 hinj
  have hne₂ : (List.insertionSort r₂ l).Pairwise (fun a b => k a ≠ k b) :=
    (p₂.pairwise_iff (fun h => Ne.symm h)).2 hinj
  have strict₁ : (List.insertionSort r₁ l).Pairwise (fun a b => k a < k b) :=
    (s₁.and hne₁).imp_of_mem
      (fun {a b} ha hb h =>
        lt_of_le_of_ne ((h₁ a (hmem₁ _ ha) b (hmem₁ _ hb)).1 h.1) h.2)
  have strict₂ : (List.insertionSort r₂ l).Pairwise (fun a b => k b < k a) :=
    (s₂.and hne₂).imp_of_mem
      (fun {a b} ha hb h =>
        lt_of_le_of_ne ((h₂ a (hmem₂ _ ha) b (hmem₂ _ hb)).1 h.1) (Ne.symm h.2))
  have strictRev : ((List.insertionSort r₁ l).reverse).Pairwise (fun a b => k b < k a) :=
    List.pairwise_reverse.2 strict₁
  letI : IsAntisymm α (fun a b => k b < k a) :=
    ⟨fun a b hab hba => absurd (hab.trans hba) (lt_irrefl _)⟩
  exact List.eq_of_perm_of_sorted
    ((p₂.trans p₁.symm).trans ((List.reverse_perm _).symm))
    strict₂ strictRev

/-! ### C3 statements -/

/-- A booth whose village is `"A"`. -/
def boothVillageUpperA : Booth :=
  ⟨0, 1, 0, some "A", none, none, none, none, none, none, none, none, none, "swing"⟩

/-- A booth whose village is `"a"`. -/
def boothVillageLowerA : Booth :=
  ⟨1, 2, 0, some "a", none, none, none, none, none, none, none, none, none, "swing"⟩

/-- Counterexample to C3 as stated: the two records' `village` values `"A"`
and `"a"` are distinct (no duplicate keys), yet sorting the column with the
direction flag reversed does not yield the exact reverse order, because both
values lowercase to the same comparator key and the stable sort keeps their
input order under either flag. -/
theorem C3_sort_reversal_counterexample :
    colVal "village" boothVillageUpperA ≠ colVal "village" boothVillageLowerA
    ∧ sortBooths "village" false [boothVillageUpperA, boothVillageLowerA]
        ≠ (sortBooths "village" true [boothVillageUpperA, boothVillageLowerA]).reverse := by
  have e1 : sortKeyStr (JVal.str "A") = "a" := by decide
  have e2 : sortKeyStr (JVal.str "a") = "a" := by decide
  have hc : ∀ asc, cmpVal asc (JVal.str "A") (JVal.str "a") = 0 := by
    intro asc
    cases asc <;>
      · simp only [cmpVal, e1, e2]
        rw [if_neg (lt_irrefl "a"), if_neg (lt_irrefl "a")]
        simp
  have hs : ∀ asc, sortBooths "village" asc [boothVillageUpperA, boothVillageLowerA]
      = [boothVillageUpperA, boothVillageLowerA] := by
    intro asc
    unfold sortBooths
    have hcc : cmpVal asc (colVal "village" boothVillageUpperA)
        (colVal "village" boothVillageLowerA) ≤ 0 := by
      show cmpVal asc (JVal.str "A") (JVal.str "a") ≤ 0
      rw [hc asc]
    simp only [List.insertionSort, List.orderedInsert]
    rw [if_pos hcc]
  refine ⟨by decide, ?_⟩
  rw [hs true, hs false]
  decide

/-- The numeric comparator key (only used on all-numeric columns). -/
def numKeyOf (v : JVal) : ℚ :=
  match v with
  | .num q => q
  | _ => 0

theorem cmpVal_num_le_zero (x y : ℚ) :
    (cmpVal true (.num x) (.num y) ≤ 0 ↔ x ≤ y)
    ∧ (cmpVal false (.num x) (.num y) ≤ 0 ↔ y ≤ x) := by
  constructor <;> simp [cmpVal, sub_nonpos]

theorem triVal_le_zero_iff (A B : String) :
    ((if A < B then (-1 : ℚ) else if A > B then 1 else 0) ≤ 0) ↔ A ≤ B := by
  rcases lt_trichotomy A B with h | h | h
  · rw [if_pos h]
    constructor
    · intro _; exact h.le
    · intro _; norm_num
  · rw [h, if_neg (lt_irrefl B), if_neg (lt_irrefl B)]
    simp
  · rw [if_neg (asymm h), if_pos h]
    constructor
    · intro h1; exact absurd h1 (by norm_num)
    · intro h1; exact absurd h1 (not_le.2 h)

theorem cmpVal_le_zero_of_nonnum (v w : JVal)
    (hv : ∀ q : ℚ, v ≠ .num q) (hw : ∀ q : ℚ, w ≠ .num q) :
    (cmpVal true v w ≤ 0 ↔ sortKeyStr v ≤ sortKeyStr w)
    ∧ (cmpVal false v w ≤ 0 ↔ sortKeyStr w ≤ sortKeyStr v) := by
  cases v with
  | num q => exact absurd rfl (hv q)
  | str s =>
    cases w with
    | num q => exact absurd rfl (hw q)
    | str t => exact ⟨triVal_le_zero_iff _ _, triVal_le_zero_iff _ _⟩
    | undefinedV => exact ⟨triVal_le_zero_iff _ _, triVal_le_zero_iff _ _⟩
  | undefinedV =>
    cases w with
    | num q => exact absurd rfl (hw q)
    | str t => exact ⟨triVal_le_zero_iff _ _, triVal_le_zero_iff _ _⟩
    | undefinedV => exact ⟨triVal_le_zero_iff _ _, triVal_le_zero_iff _ _⟩

/-- **C3 (amended).** Stability holds as claimed: for every column and
direction, the subsequence of records having any fixed column value is
unchanged by sorting (ties keep input order).  Exact reversal holds for a
homogeneous column with pairwise-distinct *comparator keys*: all values
numeric and pairwise distinct, or no value numeric and the lowercased string
forms pairwise distinct.  (As literally stated — distinct raw values — the
reversal half is false; see the counterexample.) -/
theorem C3_sort_stability_and_reversal :
    (∀ (col : String) (ascending : Bool) (l : List Booth) (v : JVal),
      (sortBooths col ascending l).filter (fun b => colVal col b == v)
        = l.filter (fun b => colVal col b == v))
    ∧ (∀ (col : String) (l : List Booth),
        (∀ b ∈ l, ∃ q : ℚ, colVal col b = JVal.num q) →
        (l.Pairwise fun a b => colVal col a ≠ colVal col b) →
        sortBooths col false l = (sortBooths col true l).reverse)
    ∧ (∀ (col : String) (l : List Booth),
        (∀ b ∈ l, ∀ q : ℚ, colVal col b ≠ JVal.num q) →
        (l.Pairwise fun a b => sortKeyStr (colVal col a) ≠ sortKeyStr (colVal col b)) →
        sortBooths col false l = (sortBooths col true l).reverse) := by
  refine ⟨?_, ?_, ?_⟩
  · intro col ascending l v
    refine filter_insertionSort _ _ (fun a b ha hb => ?_) l
    have ha' : colVal col a = v := by simpa using ha
    have hb' : colVal col b = v := by simpa using hb
    rw [ha', hb', cmpVal_self]
  · intro col l hnum hinj
    unfold sortBooths
    refine insertionSort_desc_eq_reverse (fun b => numKeyOf (colVal col b)) _ _ l
      ?_ ?_ ?_
    · intro a ha b hb
      obtain ⟨x, hx⟩ := hnum a ha
      obtain ⟨y, hy⟩ := hnum b hb
      show cmpVal true (colVal col a) (colVal col b) ≤ 0 ↔
        numKeyOf (colVal col a) ≤ numKeyOf (colVal col b)
      rw [hx, hy]
      simpa only [numKeyOf] using (cmpVal_num_le_zero x y).1
    · intro a ha b hb
      obtain ⟨x, hx⟩ := hnum a ha
      obtain ⟨y, hy⟩ := hnum b hb
      show cmpVal false (colVal col a) (colVal col b) ≤ 0 ↔
        numKeyOf (colVal col b) ≤ numKeyOf (colVal col a)
      rw [hx, hy]
      simpa only [numKeyOf] using (cmpVal_num_le_zero x y).2
    · refine hinj.imp_of_mem (fun {a b} ha hb hne hk => hne ?_)
      obtain ⟨x, hx⟩ := hnum a ha
      obtain ⟨y, hy⟩ := hnum b hb
      have hk' : numKeyOf (colVal col a) = numKeyOf (colVal col b) := hk
      rw [hx, hy] at hk' ⊢
      simp only [numKeyOf] at hk'
      rw [hk']
  · intro col l hstr hinj
    unfold sortBooths
    refine insertionSort_desc_eq_reverse (fun b => sortKeyStr (colVal col b)) _ _ l
      ?_ ?_ ?_
    · intro a ha b hb
      exact (cmpVal_le_zero_of_nonnum _ _ (hstr a ha) (hstr b hb)).1
    · intro a ha b hb
      exact (cmpVal_le_zero_of_nonnum _ _ (hstr a ha) (hstr b hb)).2
    · exact hinj

/-- Witness for the amended C3 on concrete records: a duplicate-key pair
keeps its order under both directions; a distinct-key numeric column and a
distinct-key string column reverse exactly. -/
theorem C3_sort_stability_and_reversal_witness :
    (sortBooths "village" true [boothVillageUpperA, boothVillageLowerA]).filter
        (fun b => colVal "village" b == JVal.str "A")
      = [boothVillageUpperA, boothVillageLowerA].filter
          (fun b => colVal "village" b == JVal.str "A")
    ∧ sortBooths "booth_no" false [boothVillageUpperA, boothVillageLowerA]
        = (sortBooths "booth_no" true [boothVillageUpperA, boothVillageLowerA]).reverse
    ∧ sortBooths "category_simple" false [demoBooth1, demoBooth2]
        = (sortBooths "category_simple" true [demoBooth1, demoBooth2]).reverse :=
  ⟨C3_sort_stability_and_reversal.1 "village" true
      [boothVillageUpperA, boothVillageLowerA] (JVal.str "A"),
   C3_sort_stability_and_reversal.2.1 "booth_no" [boothVillageUpperA, boothVillageLowerA]
     (by
       intro b hb
       rcases List.mem_cons.1 hb with rfl | hb'
       · exact ⟨_, rfl⟩
       · rcases List.mem_cons.1 hb' with rfl | hb''
         · exact ⟨_, rfl⟩
         · exact absurd hb'' (List.not_mem_nil b))
     (by decide),
   C3_sort_stability_and_reversal.2.2 "category_simple" [demoBooth1, demoBooth2]
     (by
       intro b hb q
       rcases List.mem_cons.1 hb with rfl | hb'
       · exact fun h => JVal.noConfusion h
       · rcases List.mem_cons.1 hb' with rfl | hb''
         · exact fun h => JVal.noConfusion h
         · exact absurd hb'' (List.not_mem_nil b))
     (by decide)⟩

/-! ## C8, C9 — `loadConstituency` (lines 234–290) as a state transition

The function is `async`: it awaits the fetch, then runs the synchronous
tail.  The browser event loop runs each resolution's continuation atomically
and in resolution order, so a run of overlapping loads is modelled by
folding the transition over the outcomes in the order the fetches resolve.
There is no generation counter or request token anywhere in app.js. -/

/-- The fetched constituency JSON, as far as `loadConstituency` consumes it:
the `booths` array may be missing (`undefined`), in which case
`currentConstituency.booths.map` throws a `TypeError`. -/
structure Constituency where
  booths : Option (List RawBooth)
deriving DecidableEq, Repr

/-- How one `loadConstituency` call's awaited fetch turns out.
`fetchError` covers a rejected `fetch` and `!response.ok`;
`jsonError` a rejected `response.json()`; both throw before any assignment. -/
inductive LoadOutcome where
  | fetchError
  | jsonError
  | success (data : Constituency)
deriving DecidableEq, Repr

/-- `currentSort` (`{ column, ascending }`). -/
structure SortState where
  column : String
  ascending : Bool
deriving DecidableEq, Repr

/-- The globals of app.js that `loadConstituency` touches. -/
structure AppState where
  currentConstituency : Option Constituency
  allBooths : List Booth
  filteredBooths : List Booth
  geohashAreas : List GeoArea
  currentSort : SortState
  activeFilter : Option String
  currentPage : ℕ
deriving DecidableEq, Repr

/-- One `loadConstituency` call from the moment its fetch settles: the
`try/catch` only logs on failure, so a throw leaves the globals as they are
at the point of the throw.  Note that `currentConstituency` is assigned
*before* `booths` is validated. -/
def loadConstituency (G : GeohashLib) (s : AppState) (r : LoadOutcome) : AppState :=
  match r with
  | .fetchError => s
  | .jsonError => s
  | .success data =>
    let s1 := { s with currentConstituency := some data }
    match data.booths with
    | none => s1
    | some raws =>
      let booths := processBooths raws
      { s1 with
        allBooths := booths
        filteredBooths := booths
        currentSort := ⟨"booth_no", true⟩
        activeFilter := none
        geohashAreas := computeGeohashAreas G booths
        currentPage := 1 }

/-- A load fails when the fetch fails, the JSON fails to parse, or the
parsed object has no `booths` array to process. -/
def loadFails : LoadOutcome → Bool
  | .fetchError => true
  | .jsonError => true
  | .success data => data.booths.isNone

/-- **C8.** A failed constituency load never touches the previously loaded
record set or its derived state: `allBooths`, `filteredBooths`, the spatial
cells, the sort state, the category filter and the current page are exactly
as before the failed load began. -/
theorem C8_failed_load_is_not_applied (G : GeohashLib) (s : AppState) (r : LoadOutcome)
    (h : loadFails r = true) :
    (loadConstituency G s r).allBooths = s.allBooths
    ∧ (loadConstituency G s r).filteredBooths = s.filteredBooths
    ∧ (loadConstituency G s r).geohashAreas = s.geohashAreas
    ∧ (loadConstituency G s r).currentSort = s.currentSort
    ∧ (loadConstituency G s r).activeFilter = s.activeFilter
    ∧ (loadConstituency G s r).currentPage = s.currentPage := by
  cases r with
  | fetchError => exact ⟨rfl, rfl, rfl, rfl, rfl, rfl⟩
  | jsonError => exact ⟨rfl, rfl, rfl, rfl, rfl, rfl⟩
  | success data =>
    rcases data with ⟨booths⟩
    cases booths with
    | none => exact ⟨rfl, rfl, rfl, rfl, rfl, rfl⟩
    | some raws => simp [loadFails, Option.isNone] at h

/-- A coordinate-less raw booth for the load demos. -/
def rawBoothA : RawBooth :=
  ⟨some 1, some 0, some "Alpha", none, none, none, some 100, some 50, some 5,
    some "DMK", some 20, none⟩

/-- A second, different coordinate-less raw booth. -/
def rawBoothB : RawBooth :=
  ⟨some 1, some 0, some "Beta", none, none, none, some 40, some 90, some 3,
    some "AIADMK", some 25, none⟩

def conA : Constituency := ⟨some [rawBoothA]⟩

def conB : Constituency := ⟨some [rawBoothB]⟩

/-- The globals before any load. -/
def initState : AppState := ⟨none, [], [], [], ⟨"booth_no", true⟩, none, 1⟩

/-- Witness for C8: a load whose JSON has no `booths` array leaves the
loaded record set of a populated state untouched. -/
theorem C8_failed_load_is_not_applied_witness :
    (loadConstituency demoG (loadConstituency demoG initState (.success conA))
        (.success ⟨none⟩)).allBooths
      = (loadConstituency demoG initState (.success conA)).allBooths
    ∧ (loadConstituency demoG (loadConstituency demoG initState (.success conA))
        (.success ⟨none⟩)).currentPage
      = (loadConstituency demoG initState (.success conA)).currentPage :=
  ⟨(C8_failed_load_is_not_applied demoG (loadConstituency demoG initState (.success conA))
      (.success ⟨none⟩) (by decide)).1,
   (C8_failed_load_is_not_applied demoG (loadConstituency demoG initState (.success conA))
      (.success ⟨none⟩) (by decide)).2.2.2.2.2⟩

/-- Counterexample to C9 as stated: start load A, then load B; B's fetch
resolves first, A's stale fetch resolves later.  app.js has no request
token, so applying the outcomes in resolution order lets the stale A
overwrite B's fresher record set — the in-flight result of the abandoned
load is *not* discarded. -/
theorem C9_stale_overwrite_counterexample :
    (loadConstituency demoG (loadConstituency demoG initState (.success conB))
        (.success conA)).allBooths
      ≠ (loadConstituency demoG initState (.success conB)).allBooths := by
  decide

/-- **C9 (amended).** Load results are applied strictly in resolution order
and each successful load fully overwrites the whole state bundle,
independently of whatever was there before: the *last-resolving* fetch
determines the final state.  In particular an older fetch resolving after a
newer one replaces the newer result wholesale (nothing is merged) — the code
never discards a stale completion. -/
theorem C9_last_resolved_load_wins (G : GeohashLib) (s₁ s₂ : AppState)
    (data : Constituency) (h : data.booths.isSome = true) :
    loadConstituency G s₁ (.success data) = loadConstituency G s₂ (.success data) := by
  rcases data with ⟨booths⟩
  cases booths with
  | none => simp [Option.isSome] at h
  | some raws => rfl

/-- Witness for the amended C9: after B then stale A, the state is exactly
the state of loading A alone. -/
theorem C9_last_resolved_load_wins_witness :
    loadConstituency demoG (loadConstituency demoG initState (.success conB))
        (.success conA)
      = loadConstituency demoG initState (.success conA) :=
  C9_last_resolved_load_wins demoG
    (loadConstituency demoG initState (.success conB)) initState conA (by decide)

end TN2021
